import Mathlib

/-!
Shallow embedding of the `mobx-when` repository (src/index.ts): the `when`
decorator factory, the `decorate` closure it returns (acting on the per-class
entry of the `whenMap` WeakMap), and the runtime behaviour of the installed
init/deinit lifecycle wrappers together with the MobX
`computed(predicate.bind(this)).observe(callback)` subscription primitive.

Modelling conventions:
* predicates, method functions and instances are identified by `Nat` ids;
  parameter and argument values are `Nat`s; method/property names are `String`s;
* the per-class entry of the WeakMap is `Option (List (String × WhenInformation))`
  where `none` means the class is absent and the association list, kept in
  insertion order, models the plain JS object used as dictionary;
* a thrown JS error is returned as `DecorateResult.thrown` next to the state
  that the mutations performed so far have produced (a JS throw does not roll
  back the WeakMap or the already installed wrappers);
* the observation of `computed(predicate.bind(this))` notifies its callback
  with the new value exactly when the computed boolean actually changes
  (computed values are de-duplicated); `Event.setPred` implements this;
* the runtime (`RunState`, `step`) follows one instance of the decorated class
  through init/deinit invocations and predicate changes, logging every call of
  the original lifecycle methods and of the bound methods as `Action`s.
-/

namespace MobxWhen

/-- The `WhenInformation` record of src/index.ts lines 5-10: the predicate,
the optional disposer returned by `observe`, the original decorated function
and the bound parameters. -/
structure WhenInformation where
  predicate : Nat
  originalFunction : Nat
  parameters : List Nat
  disposer : Option Nat := none
  deriving Repr, DecidableEq

/-- The data a single `decorate` invocation works with: the lifecycle hook
names carried by the closure (src/index.ts lines 117-122), the predicate and
parameters, and the `propertyName`/`descriptor.value` arguments of the
decorator call itself. -/
structure DecorateArgs where
  initFunctionName : String
  deinitFunctionName : String
  predicate : Nat
  parameters : List Nat
  methodName : String
  descriptor : Nat
  deriving Repr, DecidableEq

/-- Outcome of one `decorate` call: the returned property descriptor, or the
message of the thrown `Error`. -/
inductive DecorateResult where
  | ok (descriptor : Nat)
  | thrown (msg : String)
  deriving Repr, DecidableEq

/-- The part of the global state that concerns one target class: its entry in
`whenMap` (`none` when `whenMap.has(target)` is false), which property names
currently hold the activation/deactivation wrappers, and how many times each
wrapper has been installed by `Object.defineProperty`. -/
structure DecorState where
  table : Option (List (String × WhenInformation))
  initWrapper : Option String
  deinitWrapper : Option String
  initWrapCount : Nat
  deinitWrapCount : Nat
  deriving Repr, DecidableEq

/-- The state before any decoration touched the class. -/
def freshState : DecorState :=
  { table := none, initWrapper := none, deinitWrapper := none,
    initWrapCount := 0, deinitWrapCount := 0 }

/-- src/index.ts lines 187-197: if `propertyName` is already a key of the
dictionary the descriptor is returned unchanged, otherwise a new
`WhenInformation` holding the predicate, the original function taken from
`descriptor.value` and the parameters is inserted. -/
def registerBinding (a : DecorateArgs) (dict : List (String × WhenInformation)) :
    List (String × WhenInformation) :=
  if (dict.lookup a.methodName).isSome then dict
  else dict ++ [(a.methodName,
    { predicate := a.predicate, originalFunction := a.descriptor,
      parameters := a.parameters })]

/-- The `decorate` closure returned by `when` (src/index.ts lines 124-200),
restricted to one target class.  `tgt name` tells whether `target[name]` is
defined.  On the first decoration of a class the entry is created first, the
init wrapper is installed if the init hook exists (else the initializer error
is thrown), then the deinit wrapper is installed if the deinit hook exists
(else the deinitializer error is thrown); the returned state keeps every
mutation performed before a throw. -/
def decorate (tgt : String → Bool) (a : DecorateArgs) (s : DecorState) :
    DecorState × DecorateResult :=
  match s.table with
  | none =>
    let s1 : DecorState := { s with table := some [] }
    if tgt a.initFunctionName then
      let s2 : DecorState := { s1 with
        initWrapper := some a.initFunctionName,
        initWrapCount := s1.initWrapCount + 1 }
      if tgt a.deinitFunctionName then
        let s3 : DecorState := { s2 with
          deinitWrapper := some a.deinitFunctionName,
          deinitWrapCount := s2.deinitWrapCount + 1 }
        ({ s3 with table := some (registerBinding a []) }, .ok a.descriptor)
      else
        (s2, .thrown "No deinitializer function is provided for @when")
    else
      (s1, .thrown "No initializer function is provided for @when")
  | some dict =>
    ({ s with table := some (registerBinding a dict) }, .ok a.descriptor)

/-- A sequence of decorations of methods of the same class. -/
def decorateAll (tgt : String → Bool) (s : DecorState) : List DecorateArgs → DecorState
  | [] => s
  | a :: as => decorateAll tgt (decorate tgt a s).1 as

/-- The two invocation shapes of `when` (src/index.ts lines 103-115): a bare
predicate with trailing parameters, or a configuration object. -/
inductive WhenArg where
  | pred (predicate : Nat) (parameters : List Nat)
  | config (predicate : Nat) (parameters : Option (List Nat))
      (initFunctionName : Option String) (deinitFunctionName : Option String)
  deriving Repr, DecidableEq

/-- src/index.ts lines 103-122: normalisation of the two invocation shapes,
defaulting the lifecycle hook names to the React component names. -/
def whenArgs (w : WhenArg) (methodName : String) (descriptor : Nat) : DecorateArgs :=
  match w with
  | .pred p ps =>
    { initFunctionName := "componentDidMount",
      deinitFunctionName := "componentWillUnmount",
      predicate := p, parameters := ps,
      methodName := methodName, descriptor := descriptor }
  | .config p ps i d =>
    { initFunctionName := i.getD "componentDidMount",
      deinitFunctionName := d.getD "componentWillUnmount",
      predicate := p, parameters := ps.getD [],
      methodName := methodName, descriptor := descriptor }

/-- A live observation created by `computed(predicate.bind(this)).observe(...)`:
its disposer id, the predicate it observes, and the method and parameters its
callback closes over. -/
structure Subscription where
  id : Nat
  predicate : Nat
  originalFunction : Nat
  parameters : List Nat
  deriving Repr, DecidableEq

/-- Observable effects of the wrappers on one instance: a call of the original
initializer/deinitializer (receiver and arguments), a call of a bound method
(receiver, function and parameters), the start of an observation, and an
invocation of a disposer. -/
inductive Action where
  | origInit (recv : Nat) (args : List Nat)
  | origDeinit (recv : Nat) (args : List Nat)
  | methodCall (recv : Nat) (fn : Nat) (params : List Nat)
  | subStart (id : Nat)
  | subDispose (id : Nat)
  deriving Repr, DecidableEq

/-- External events acting on one instance: the wrapped init hook is invoked,
the wrapped deinit hook is invoked, or the observable input of predicate `p`
changes so that the predicate now evaluates to `v`. -/
inductive Event where
  | callInit (args : List Nat)
  | callDeinit (args : List Nat)
  | setPred (p : Nat) (v : Bool)
  deriving Repr, DecidableEq

/-- Runtime state of one instance of the decorated class: the instance id
(the `this` of the wrapper invocations), the class's binding dictionary, the
set of live observations, the next fresh disposer id, and the current value
of every predicate on this instance. -/
structure RunState where
  inst : Nat
  infos : List (String × WhenInformation)
  liveSubs : List Subscription
  nextSub : Nat
  predVal : Nat → Bool

/-- Body of the init wrapper's for-in loop (src/index.ts lines 144-156): for
every binding, in dictionary order, start an observation of the computed
predicate bound to the instance (storing the returned disposer into the
binding), then call the bound method immediately when the predicate currently
evaluates to true.  Returns the updated dictionary, the new subscriptions,
the next fresh id and the logged actions. -/
def runInitLoop (inst : Nat) (predVal : Nat → Bool) :
    List (String × WhenInformation) → Nat →
    List (String × WhenInformation) × List Subscription × Nat × List Action
  | [], n => ([], [], n, [])
  | (k, info) :: rest, n =>
    let fires : List Action :=
      if predVal info.predicate then
        [Action.methodCall inst info.originalFunction info.parameters]
      else []
    let r := runInitLoop inst predVal rest (n + 1)
    ((k, { info with disposer := some n }) :: r.1,
      { id := n, predicate := info.predicate,
        originalFunction := info.originalFunction,
        parameters := info.parameters } :: r.2.1,
      r.2.2.1,
      (Action.subStart n :: fires) ++ r.2.2.2)

/-- Body of the deinit wrapper's for-in loop (src/index.ts lines 172-175):
for every binding, call its stored disposer if present; the disposer cancels
the observation with that id (calling it again is a no-op); the `disposer`
field itself is left in place. -/
def runDeinitLoop :
    List (String × WhenInformation) → List Subscription →
    List Subscription × List Action
  | [], live => (live, [])
  | (_, info) :: rest, live =>
    match info.disposer with
    | none => runDeinitLoop rest live
    | some sid =>
      let r := runDeinitLoop rest (live.filter fun sub => sub.id != sid)
      (r.1, Action.subDispose sid :: r.2)

/-- One runtime event on one instance.  `callInit` runs the activation wrapper
(src/index.ts lines 139-157): original initializer first, then the loop over
the bindings.  `callDeinit` runs the deactivation wrapper (lines 167-176):
original deinitializer first, then the disposal loop.  `setPred p v` delivers
the change of predicate `p` to the value `v`: when the value differs from the
current one, every live observation of `p` receives the callback, which calls
the bound method exactly when the new value is true. -/
def step (s : RunState) : Event → RunState × List Action
  | .callInit args =>
    let r := runInitLoop s.inst s.predVal s.infos s.nextSub
    ({ s with infos := r.1, liveSubs := s.liveSubs ++ r.2.1, nextSub := r.2.2.1 },
      Action.origInit s.inst args :: r.2.2.2)
  | .callDeinit args =>
    let r := runDeinitLoop s.infos s.liveSubs
    ({ s with liveSubs := r.1 }, Action.origDeinit s.inst args :: r.2)
  | .setPred p v =>
    if v = s.predVal p then (s, [])
    else
      ({ s with predVal := fun q => if q = p then v else s.predVal q },
        s.liveSubs.filterMap fun sub =>
          if sub.predicate = p then
            if v then some (Action.methodCall s.inst sub.originalFunction sub.parameters)
            else none
          else none)

/-- Run a list of events, concatenating the logged actions. -/
def runEvents (s : RunState) : List Event → RunState × List Action
  | [] => (s, [])
  | e :: es =>
    let r := step s e
    let r' := runEvents r.1 es
    (r'.1, r.2 ++ r'.2)

/-- Recogniser of bound-method calls among the logged actions. -/
def Action.isMethodCall : Action → Bool
  | .methodCall _ _ _ => true
  | _ => false

/-- Recogniser of original-lifecycle calls among the logged actions. -/
def Action.isLifecycle : Action → Bool
  | .origInit _ _ => true
  | .origDeinit _ _ => true
  | _ => false

/-- The bound-method calls contained in a list of actions. -/
def methodCalls (acts : List Action) : List Action :=
  acts.filter Action.isMethodCall

/-- The runtime state of an instance that has just been constructed: the
class's dictionary as decoration left it, no live observation yet. -/
def initialRunState (inst : Nat) (infos : List (String × WhenInformation))
    (predVal : Nat → Bool) : RunState :=
  { inst := inst, infos := infos, liveSubs := [], nextSub := 0, predVal := predVal }

/-- The disposer ids currently stored in a dictionary. -/
def disposerIds (infos : List (String × WhenInformation)) : List Nat :=
  infos.filterMap fun e => e.2.disposer

/-- Recogniser of predicate-change events. -/
def Event.isSetPred : Event → Bool
  | .setPred _ _ => true
  | _ => false

/-- Whether a trace contains an invocation of the wrapped init hook. -/
def hasInitEvent (es : List Event) : Bool :=
  es.any fun e => match e with | .callInit _ => true | _ => false

/-- Strict alternation of the lifecycle events of one instance: starting from
activity flag `act`, `some act'` when the init/deinit calls in the trace
alternate legally and leave the instance with activity `act'`; `none` when
the trace double-activates or deactivates an inactive instance. -/
def alternates : Bool → List Event → Option Bool
  | act, [] => some act
  | act, .callInit _ :: es => if act then none else alternates true es
  | act, .callDeinit _ :: es => if act then alternates false es else none
  | act, .setPred _ _ :: es => alternates act es

/-- Invariant tying an instance's activity flag to the runtime state: while
inactive there is no live observation; while active every live observation's
disposer id is stored in some binding of the dictionary. -/
def Inv : Bool → RunState → Prop
  | false, s => s.liveSubs = []
  | true, s => ∀ sub ∈ s.liveSubs, sub.id ∈ disposerIds s.infos

/-- A target class exposing both default React lifecycle hooks. -/
def tgtBoth : String → Bool :=
  fun n => n == "componentDidMount" || n == "componentWillUnmount"

/-- A target class exposing only the init hook. -/
def tgtInitOnly : String → Bool :=
  fun n => n == "componentDidMount"

/-- A target class exposing neither lifecycle hook. -/
def tgtNone : String → Bool := fun _ => false

/-- Decoration of method `m` with predicate 0 and parameters `[1, 2]`. -/
def argsA : DecorateArgs :=
  { initFunctionName := "componentDidMount",
    deinitFunctionName := "componentWillUnmount",
    predicate := 0, parameters := [1, 2], methodName := "m", descriptor := 7 }

/-- Decoration of the same method `m` with a different predicate, different
parameters and a different descriptor. -/
def argsB : DecorateArgs :=
  { initFunctionName := "componentDidMount",
    deinitFunctionName := "componentWillUnmount",
    predicate := 3, parameters := [4], methodName := "m", descriptor := 8 }

/-- Decoration of method `n` supplying lifecycle hook names of its own. -/
def argsAlt : DecorateArgs :=
  { initFunctionName := "start", deinitFunctionName := "stop",
    predicate := 5, parameters := [], methodName := "n", descriptor := 9 }

lemma methodCalls_append (a b : List Action) :
    methodCalls (a ++ b) = methodCalls a ++ methodCalls b := by
  simp [methodCalls, List.filter_append]

lemma methodCalls_runInitLoop (inst : Nat) (pv : Nat → Bool)
    (l : List (String × WhenInformation)) (n : Nat) :
    methodCalls (runInitLoop inst pv l n).2.2.2 =
      l.filterMap fun e =>
        if pv e.2.predicate then
          some (Action.methodCall inst e.2.originalFunction e.2.parameters)
        else none := by
  induction l generalizing n with
  | nil => rfl
  | cons kv rest ih =>
    obtain ⟨k, info⟩ := kv
    have ih' := ih (n + 1)
    simp only [methodCalls] at ih'
    by_cases h : pv info.predicate <;>
      simp [runInitLoop, h, methodCalls_append, methodCalls, List.filter,
        Action.isMethodCall, ih']

/-- C2: for every binding registered on the class, if its predicate evaluates
to true at the moment the init wrapper runs, the bound method is invoked
exactly once during activation, with the recorded parameters and the instance
as receiver; if its predicate is false at that moment, activation does not
invoke it.  The bound-method calls logged by the activation wrapper are
exactly one call per binding whose predicate currently holds. -/
theorem C2_immediate_fire (s : RunState) (args : List Nat) :
    methodCalls (step s (.callInit args)).2 =
      s.infos.filterMap fun e =>
        if s.predVal e.2.predicate then
          some (Action.methodCall s.inst e.2.originalFunction e.2.parameters)
        else none := by
  simp [step, methodCalls, List.filter, Action.isMethodCall]
  simpa [methodCalls] using methodCalls_runInitLoop s.inst s.predVal s.infos s.nextSub

/-- C1: after activation, the observation callback invokes the bound method
exactly on each false-to-true transition of the predicate: for the predicate
value sequence false, true, true, false, true after activation, the method
fires exactly twice from the observation — not on the true-to-true repeat,
not on the true-to-false transition. -/
theorem C1_transition_fire (i p f : Nat) (ps : List Nat) :
    methodCalls (runEvents
        (step (initialRunState i [("m", ⟨p, f, ps, none⟩)] (fun _ => false)) (.callInit [])).1
        [Event.setPred p true, Event.setPred p true,
         Event.setPred p false, Event.setPred p true]).2 =
      [Action.methodCall i f ps, Action.methodCall i f ps] := by
  simp [runEvents, step, runInitLoop, initialRunState, methodCalls, List.filter,
    List.filterMap, Action.isMethodCall]

lemma runInitLoop_no_lifecycle (inst : Nat) (pv : Nat → Bool)
    (l : List (String × WhenInformation)) (n : Nat) :
    ∀ x ∈ (runInitLoop inst pv l n).2.2.2, x.isLifecycle = false := by
  induction l generalizing n with
  | nil => simp [runInitLoop]
  | cons kv rest ih =>
    obtain ⟨k, info⟩ := kv
    by_cases h : pv info.predicate <;>
      simp [runInitLoop, h, Action.isLifecycle] <;>
      exact fun x hx => ih (n + 1) x hx

lemma runDeinitLoop_no_lifecycle (l : List (String × WhenInformation))
    (live : List Subscription) :
    ∀ x ∈ (runDeinitLoop l live).2, x.isLifecycle = false := by
  induction l generalizing live with
  | nil => simp [runDeinitLoop]
  | cons kv rest ih =>
    obtain ⟨k, info⟩ := kv
    cases h : info.disposer with
    | none => simpa [runDeinitLoop, h] using ih live
    | some sid =>
      simp [runDeinitLoop, h, Action.isLifecycle]
      exact fun x hx => ih _ x hx

/-- C8: on every invocation of the wrapped init or deinit hook, the original
method defined before decoration is called first, with exactly the same
arguments and the instance as receiver, before any subscription start or
teardown; the rest of the wrapper's log contains no further lifecycle call. -/
theorem C8_lifecycle_passthrough (s : RunState) (args args' : List Nat) :
    ((step s (.callInit args)).2.head? = some (Action.origInit s.inst args) ∧
      ∀ x ∈ (step s (.callInit args)).2.tail, x.isLifecycle = false) ∧
    ((step s (.callDeinit args')).2.head? = some (Action.origDeinit s.inst args') ∧
      ∀ x ∈ (step s (.callDeinit args')).2.tail, x.isLifecycle = false) := by
  refine ⟨⟨by simp [step], ?_⟩, ⟨by simp [step], ?_⟩⟩
  · simpa [step] using runInitLoop_no_lifecycle s.inst s.predVal s.infos s.nextSub
  · simpa [step] using runDeinitLoop_no_lifecycle s.infos s.liveSubs

/-- C5: when a class is not yet present in the registry and lacks the method
under the configured init name or under the configured deinit name, the
decorator throws the corresponding configuration error at decoration time. -/
theorem C5_missing_hook_throws (tgt : String → Bool) (a : DecorateArgs)
    (s : DecorState) (hs : s.table = none)
    (h : tgt a.initFunctionName = false ∨ tgt a.deinitFunctionName = false) :
    (decorate tgt a s).2 = .thrown "No initializer function is provided for @when" ∨
    (decorate tgt a s).2 = .thrown "No deinitializer function is provided for @when" := by
  cases hI : tgt a.initFunctionName with
  | false => left; simp [decorate, hs, hI]
  | true =>
    right
    rcases h with h | h
    · exact absurd hI (by simp [h])
    · simp [decorate, hs, hI, h]

/-- Witness for C5 at a concrete input: a fresh class with neither lifecycle
hook makes decoration throw. -/
theorem C5_missing_hook_throws_witness :
    (freshState.table = none ∧
      (tgtNone argsA.initFunctionName = false ∨ tgtNone argsA.deinitFunctionName = false)) ∧
    ((decorate tgtNone argsA freshState).2 =
        .thrown "No initializer function is provided for @when" ∨
      (decorate tgtNone argsA freshState).2 =
        .thrown "No deinitializer function is provided for @when") :=
  ⟨⟨rfl, Or.inl rfl⟩, C5_missing_hook_throws tgtNone argsA freshState rfl (Or.inl rfl)⟩

/-- C9: decoration failure is not atomic.  If the init hook exists but the
deinit hook does not, the thrown error leaves the registry with a still empty
binding table for the class and the init wrapper already installed, and a
subsequent decoration of any method on the class does not throw and registers
its binding, although no deinit wrapper exists. -/
theorem C9_nonatomic_failure (tgt : String → Bool) (a a' : DecorateArgs)
    (h1 : tgt a.initFunctionName = true) (h2 : tgt a.deinitFunctionName = false) :
    (decorate tgt a freshState).2 =
      .thrown "No deinitializer function is provided for @when" ∧
    (decorate tgt a freshState).1.table = some [] ∧
    (decorate tgt a freshState).1.initWrapper = some a.initFunctionName ∧
    (decorate tgt a freshState).1.initWrapCount = 1 ∧
    (decorate tgt a freshState).1.deinitWrapper = none ∧
    (decorate tgt a freshState).1.deinitWrapCount = 0 ∧
    (decorate tgt a' (decorate tgt a freshState).1).2 = .ok a'.descriptor ∧
    (decorate tgt a' (decorate tgt a freshState).1).1.table =
      some [(a'.methodName,
        { predicate := a'.predicate, originalFunction := a'.descriptor,
          parameters := a'.parameters, disposer := none })] ∧
    (decorate tgt a' (decorate tgt a freshState).1).1.deinitWrapCount = 0 := by
  simp [decorate, freshState, h1, h2, registerBinding]

/-- Witness for C9 at a concrete input: a class having only the init hook. -/
theorem C9_nonatomic_failure_witness :
    (tgtInitOnly argsA.initFunctionName = true ∧
      tgtInitOnly argsA.deinitFunctionName = false) ∧
    ((decorate tgtInitOnly argsA freshState).2 =
        .thrown "No deinitializer function is provided for @when" ∧
      (decorate tgtInitOnly argsA freshState).1.table = some [] ∧
      (decorate tgtInitOnly argsA freshState).1.initWrapper =
        some argsA.initFunctionName ∧
      (decorate tgtInitOnly argsA freshState).1.initWrapCount = 1 ∧
      (decorate tgtInitOnly argsA freshState).1.deinitWrapper = none ∧
      (decorate tgtInitOnly argsA freshState).1.deinitWrapCount = 0 ∧
      (decorate tgtInitOnly argsB (decorate tgtInitOnly argsA freshState).1).2 =
        .ok argsB.descriptor ∧
      (decorate tgtInitOnly argsB (decorate tgtInitOnly argsA freshState).1).1.table =
        some [(argsB.methodName,
          { predicate := argsB.predicate, originalFunction := argsB.descriptor,
            parameters := argsB.parameters, disposer := none })] ∧
      (decorate tgtInitOnly argsB (decorate tgtInitOnly argsA freshState).1).1.deinitWrapCount = 0) :=
  ⟨⟨by decide, by decide⟩,
    C9_nonatomic_failure tgtInitOnly argsA argsB (by decide) (by decide)⟩

lemma decorate_table_some (tgt : String → Bool) (a : DecorateArgs) (s : DecorState)
    (d : List (String × WhenInformation)) (hs : s.table = some d) :
    decorate tgt a s = ({ s with table := some (registerBinding a d) }, .ok a.descriptor) := by
  simp [decorate, hs]

lemma decorateAll_frozen (tgt : String → Bool) (as : List DecorateArgs) :
    ∀ s : DecorState, s.table.isSome = true →
      (decorateAll tgt s as).initWrapCount = s.initWrapCount ∧
      (decorateAll tgt s as).deinitWrapCount = s.deinitWrapCount ∧
      (decorateAll tgt s as).initWrapper = s.initWrapper ∧
      (decorateAll tgt s as).deinitWrapper = s.deinitWrapper := by
  induction as with
  | nil => intro s _; simp [decorateAll]
  | cons a rest ih =>
    intro s hs
    obtain ⟨d, hd⟩ := Option.isSome_iff_exists.mp hs
    have hdec := decorate_table_some tgt a s d hd
    have hnext := ih ({ s with table := some (registerBinding a d) }) (by simp)
    simpa [decorateAll, hdec] using hnext

lemma decorate_fresh_bounds (tgt : String → Bool) (a : DecorateArgs) :
    (decorate tgt a freshState).1.table.isSome = true ∧
    (decorate tgt a freshState).1.initWrapCount ≤ 1 ∧
    (decorate tgt a freshState).1.deinitWrapCount ≤ 1 := by
  cases hI : tgt a.initFunctionName <;> cases hD : tgt a.deinitFunctionName <;>
    simp [decorate, freshState, hI, hD]

/-- C6: lifecycle wrapping is idempotent per class.  When the class exposes
both configured hooks, the first decoration installs exactly one activation
wrapper and one deactivation wrapper, and any number of further decorations,
in any order, installs no more; moreover for an arbitrary decoration
sequence from a fresh class each wrapper is installed at most once. -/
theorem C6_wrap_once (tgt : String → Bool) (a : DecorateArgs)
    (as bs : List DecorateArgs)
    (h1 : tgt a.initFunctionName = true) (h2 : tgt a.deinitFunctionName = true) :
    ((decorate tgt a freshState).1.initWrapCount = 1 ∧
      (decorate tgt a freshState).1.deinitWrapCount = 1) ∧
    ((decorateAll tgt (decorate tgt a freshState).1 as).initWrapCount = 1 ∧
      (decorateAll tgt (decorate tgt a freshState).1 as).deinitWrapCount = 1) ∧
    ((decorateAll tgt freshState bs).initWrapCount ≤ 1 ∧
      (decorateAll tgt freshState bs).deinitWrapCount ≤ 1) := by
  have hcounts : (decorate tgt a freshState).1.initWrapCount = 1 ∧
      (decorate tgt a freshState).1.deinitWrapCount = 1 := by
    simp [decorate, freshState, h1, h2]
  have hsome : (decorate tgt a freshState).1.table.isSome = true :=
    (decorate_fresh_bounds tgt a).1
  have hfroz := decorateAll_frozen tgt as _ hsome
  refine ⟨hcounts, ⟨?_, ?_⟩, ?_⟩
  · rw [hfroz.1, hcounts.1]
  · rw [hfroz.2.1, hcounts.2]
  · cases bs with
    | nil => simp [decorateAll, freshState]
    | cons b rest =>
      have hb := decorate_fresh_bounds tgt b
      have hfr := decorateAll_frozen tgt rest _ hb.1
      constructor
      · rw [decorateAll, hfr.1]; exact hb.2.1
      · rw [decorateAll, hfr.2.1]; exact hb.2.2

/-- Witness for C6 at a concrete input: two further decorations of other
methods, in some order, leave exactly one wrapper of each kind installed. -/
theorem C6_wrap_once_witness :
    (tgtBoth argsA.initFunctionName = true ∧ tgtBoth argsA.deinitFunctionName = true) ∧
    (((decorate tgtBoth argsA freshState).1.initWrapCount = 1 ∧
        (decorate tgtBoth argsA freshState).1.deinitWrapCount = 1) ∧
      ((decorateAll tgtBoth (decorate tgtBoth argsA freshState).1 [argsAlt, argsB]).initWrapCount = 1 ∧
        (decorateAll tgtBoth (decorate tgtBoth argsA freshState).1 [argsAlt, argsB]).deinitWrapCount = 1) ∧
      ((decorateAll tgtBoth freshState [argsB, argsAlt]).initWrapCount ≤ 1 ∧
        (decorateAll tgtBoth freshState [argsB, argsAlt]).deinitWrapCount ≤ 1)) :=
  ⟨⟨by decide, by decide⟩,
    C6_wrap_once tgtBoth argsA [argsAlt, argsB] [argsB, argsAlt] (by decide) (by decide)⟩

/-- C7: decorating the same method name twice on the same class is idempotent.
The second decoration returns the descriptor unchanged and leaves the whole
registry state exactly as after the first decoration, which keeps the single
binding holding the first decoration's predicate and parameters. -/
theorem C7_duplicate_noop (tgt : String → Bool) (a a' : DecorateArgs)
    (hm : a'.methodName = a.methodName)
    (h1 : tgt a.initFunctionName = true) (h2 : tgt a.deinitFunctionName = true) :
    decorate tgt a' (decorate tgt a freshState).1 =
      ((decorate tgt a freshState).1, .ok a'.descriptor) ∧
    (decorate tgt a freshState).1.table =
      some [(a.methodName,
        { predicate := a.predicate, originalFunction := a.descriptor,
          parameters := a.parameters, disposer := none })] := by
  have hs1 : (decorate tgt a freshState).1 =
      { table := some [(a.methodName,
          { predicate := a.predicate, originalFunction := a.descriptor,
            parameters := a.parameters, disposer := none })],
        initWrapper := some a.initFunctionName,
        deinitWrapper := some a.deinitFunctionName,
        initWrapCount := 1, deinitWrapCount := 1 } := by
    simp [decorate, freshState, h1, h2, registerBinding]
  rw [hs1]
  exact ⟨by simp [decorate, registerBinding, hm, List.lookup], rfl⟩

/-- Witness for C7 at a concrete input: re-decorating method `m` with a
different predicate, parameters and descriptor changes nothing. -/
theorem C7_duplicate_noop_witness :
    (argsB.methodName = argsA.methodName ∧
      tgtBoth argsA.initFunctionName = true ∧ tgtBoth argsA.deinitFunctionName = true) ∧
    (decorate tgtBoth argsB (decorate tgtBoth argsA freshState).1 =
        ((decorate tgtBoth argsA freshState).1, .ok argsB.descriptor) ∧
      (decorate tgtBoth argsA freshState).1.table =
        some [(argsA.methodName,
          { predicate := argsA.predicate, originalFunction := argsA.descriptor,
            parameters := argsA.parameters, disposer := none })]) :=
  ⟨⟨by decide, by decide, by decide⟩,
    C7_duplicate_noop tgtBoth argsA argsB (by decide) (by decide) (by decide)⟩

/-- C10: the lifecycle hook names of a class are fixed by its first
decoration.  The names supplied by a later decoration on the same class are
silently ignored: the wrappers stay installed under the first decoration's
names, and the later decoration succeeds without those names ever being
checked on the target. -/
theorem C10_hook_names_fixed (tgt : String → Bool) (a a' : DecorateArgs)
    (h1 : tgt a.initFunctionName = true) (h2 : tgt a.deinitFunctionName = true) :
    (decorate tgt a freshState).1.initWrapper = some a.initFunctionName ∧
    (decorate tgt a freshState).1.deinitWrapper = some a.deinitFunctionName ∧
    (decorate tgt a' (decorate tgt a freshState).1).1.initWrapper =
      some a.initFunctionName ∧
    (decorate tgt a' (decorate tgt a freshState).1).1.deinitWrapper =
      some a.deinitFunctionName ∧
    (decorate tgt a' (decorate tgt a freshState).1).2 = .ok a'.descriptor := by
  simp [decorate, freshState, h1, h2, registerBinding]

/-- Witness for C10 at a concrete input: the second decoration supplies hook
names that the target does not even possess, yet succeeds and changes no
wrapper. -/
theorem C10_hook_names_fixed_witness :
    (tgtBoth argsA.initFunctionName = true ∧ tgtBoth argsA.deinitFunctionName = true) ∧
    ((decorate tgtBoth argsA freshState).1.initWrapper = some argsA.initFunctionName ∧
      (decorate tgtBoth argsA freshState).1.deinitWrapper = some argsA.deinitFunctionName ∧
      (decorate tgtBoth argsAlt (decorate tgtBoth argsA freshState).1).1.initWrapper =
        some argsA.initFunctionName ∧
      (decorate tgtBoth argsAlt (decorate tgtBoth argsA freshState).1).1.deinitWrapper =
        some argsA.deinitFunctionName ∧
      (decorate tgtBoth argsAlt (decorate tgtBoth argsA freshState).1).2 =
        .ok argsAlt.descriptor) :=
  ⟨⟨by decide, by decide⟩,
    C10_hook_names_fixed tgtBoth argsA argsAlt (by decide) (by decide)⟩

lemma runInitLoop_sub_ids (inst : Nat) (pv : Nat → Bool)
    (l : List (String × WhenInformation)) (n : Nat) :
    ∀ sub ∈ (runInitLoop inst pv l n).2.1,
      sub.id ∈ disposerIds (runInitLoop inst pv l n).1 := by
  induction l generalizing n with
  | nil => simp [runInitLoop]
  | cons kv rest ih =>
    obtain ⟨k, info⟩ := kv
    intro sub hsub
    simp [runInitLoop] at hsub
    simp [runInitLoop, disposerIds, List.filterMap]
    rcases hsub with rfl | hsub
    · left; rfl
    · right
      simpa [disposerIds] using ih (n + 1) sub hsub

lemma runDeinitLoop_clears (l : List (String × WhenInformation)) :
    ∀ live : List Subscription, (∀ sub ∈ live, sub.id ∈ disposerIds l) →
      (runDeinitLoop l live).1 = [] := by
  induction l with
  | nil =>
    intro live h
    have hl : live = [] := by
      cases live with
      | nil => rfl
      | cons x xs => exact absurd (h x (by simp)) (by simp [disposerIds])
    simp [runDeinitLoop, hl]
  | cons kv rest ih =>
    obtain ⟨k, info⟩ := kv
    intro live h
    cases hd : info.disposer with
    | none =>
      have hrest : ∀ sub ∈ live, sub.id ∈ disposerIds rest := by
        intro sub hs
        have := h sub hs
        simpa [disposerIds, hd] using this
      simpa [runDeinitLoop, hd] using ih live hrest
    | some sid =>
      have hrest : ∀ sub ∈ live.filter (fun sub => sub.id != sid),
          sub.id ∈ disposerIds rest := by
        intro sub hs
        rw [List.mem_filter] at hs
        obtain ⟨hmem, hne⟩ := hs
        have := h sub hmem
        simp [disposerIds, hd] at this ⊢
        rcases this with heq | hmemrest
        · exact absurd heq (by simpa using hne)
        · exact hmemrest
      simpa [runDeinitLoop, hd] using ih _ hrest

lemma step_setPred_frame (s : RunState) (p : Nat) (v : Bool) :
    (step s (.setPred p v)).1.liveSubs = s.liveSubs ∧
    (step s (.setPred p v)).1.infos = s.infos := by
  by_cases h : v = s.predVal p <;> simp [step, h]

lemma inv_runEvents :
    ∀ (es : List Event) (act act' : Bool) (s : RunState),
      alternates act es = some act' → Inv act s → Inv act' (runEvents s es).1 := by
  intro es
  induction es with
  | nil =>
    intro act act' s h hInv
    simp [alternates] at h
    subst h
    simpa [runEvents] using hInv
  | cons e rest ih =>
    intro act act' s h hInv
    cases e with
    | callInit args =>
      cases act with
      | true => simp [alternates] at h
      | false =>
        simp [alternates] at h
        have hl : s.liveSubs = [] := hInv
        have hInv' : Inv true (step s (.callInit args)).1 := by
          show ∀ sub ∈ (step s (.callInit args)).1.liveSubs,
            sub.id ∈ disposerIds (step s (.callInit args)).1.infos
          simp [step, hl]
          exact runInitLoop_sub_ids s.inst s.predVal s.infos s.nextSub
        simpa [runEvents] using ih true act' _ h hInv'
    | callDeinit args =>
      cases act with
      | false => simp [alternates] at h
      | true =>
        simp [alternates] at h
        have hInv' : Inv false (step s (.callDeinit args)).1 := by
          show (step s (.callDeinit args)).1.liveSubs = []
          simp [step]
          exact runDeinitLoop_clears s.infos s.liveSubs hInv
        simpa [runEvents] using ih false act' _ h hInv'
    | setPred p v =>
      simp [alternates] at h
      obtain ⟨hl, hi⟩ := step_setPred_frame s p v
      have hInv' : Inv act (step s (.setPred p v)).1 := by
        cases act with
        | false => show (step s (.setPred p v)).1.liveSubs = []; rw [hl]; exact hInv
        | true =>
          intro sub hsub
          rw [hl] at hsub
          rw [hi]
          exact hInv sub hsub
      simpa [runEvents] using ih act act' _ h hInv'

lemma inactive_setPred_silent :
    ∀ (fs : List Event) (s : RunState), s.liveSubs = [] →
      (∀ e ∈ fs, e.isSetPred = true) →
      methodCalls (runEvents s fs).2 = [] ∧ (runEvents s fs).1.liveSubs = [] := by
  intro fs
  induction fs with
  | nil => intro s h _; simp [runEvents, methodCalls, h]
  | cons e rest ih =>
    intro s h hall
    cases e with
    | callInit args =>
      have hfalse := hall (Event.callInit args) (by simp)
      simp [Event.isSetPred] at hfalse
    | callDeinit args =>
      have hfalse := hall (Event.callDeinit args) (by simp)
      simp [Event.isSetPred] at hfalse
    | setPred p v =>
      have hstep : (step s (.setPred p v)).1.liveSubs = [] ∧
          (step s (.setPred p v)).2 = [] := by
        by_cases hv : v = s.predVal p <;> simp [step, hv, h]
      have hrest := ih (step s (.setPred p v)).1 hstep.1 (fun e he => hall e (by simp [he]))
      constructor
      · show methodCalls (runEvents s (Event.setPred p v :: rest)).2 = []
        simp only [runEvents]
        rw [methodCalls_append, hstep.2, hrest.1]
        rfl
      · simpa [runEvents] using hrest.2

/-- C3: for an instance whose init and deinit calls strictly alternate,
starting with init, every subscription started by an activation is disposed
by the matching deactivation: after a trace that ends deactivated there is no
live observation left, and no further sequence of predicate changes produces
any bound-method call until the next activation. -/
theorem C3_disposal (i : Nat) (pv : Nat → Bool)
    (infos : List (String × WhenInformation)) (es fs : List Event)
    (h : alternates false es = some false)
    (hfs : ∀ e ∈ fs, e.isSetPred = true) :
    (runEvents (initialRunState i infos pv) es).1.liveSubs = [] ∧
    methodCalls (runEvents (runEvents (initialRunState i infos pv) es).1 fs).2 = [] := by
  have h0 : Inv false (initialRunState i infos pv) := rfl
  have h1 : (runEvents (initialRunState i infos pv) es).1.liveSubs = [] :=
    inv_runEvents es false false _ h h0
  exact ⟨h1, (inactive_setPred_silent fs _ h1 hfs).1⟩

/-- Witness for C3 at a concrete input: activate, let the predicate become
true (firing once), deactivate; afterwards flapping the predicate fires
nothing. -/
theorem C3_disposal_witness :
    (alternates false
        [Event.callInit [], Event.setPred 0 true, Event.callDeinit []] = some false ∧
      (∀ e ∈ [Event.setPred 0 false, Event.setPred 0 true], e.isSetPred = true)) ∧
    ((runEvents (initialRunState 0 [("m", ⟨0, 1, [2], none⟩)] (fun _ => false))
        [Event.callInit [], Event.setPred 0 true, Event.callDeinit []]).1.liveSubs = [] ∧
      methodCalls (runEvents
        (runEvents (initialRunState 0 [("m", ⟨0, 1, [2], none⟩)] (fun _ => false))
          [Event.callInit [], Event.setPred 0 true, Event.callDeinit []]).1
        [Event.setPred 0 false, Event.setPred 0 true]).2 = []) :=
  ⟨⟨by decide, by decide⟩,
    C3_disposal 0 (fun _ => false) [("m", ⟨0, 1, [2], none⟩)]
      [Event.callInit [], Event.setPred 0 true, Event.callDeinit []]
      [Event.setPred 0 false, Event.setPred 0 true] (by decide) (by decide)⟩

/-- C4 counterexample: the deactivation wrapper does not clear the stored
subscription handle.  One binding, one activation with no fire, one matching
deactivation: right after the deinit wrapper has run — so init has not run
more recently than deinit — the binding still holds `disposer = some 0`
instead of the empty handle the claim demands. -/
theorem C4_not_cleared_counterexample :
    ((runEvents (initialRunState 0 [("m", ⟨0, 1, [], none⟩)] (fun _ => false))
        [Event.callInit [], Event.callDeinit []]).1.infos.lookup "m") =
      some { predicate := 0, originalFunction := 1, parameters := [],
             disposer := some 0 } := by
  decide

lemma runInitLoop_disposer_some (inst : Nat) (pv : Nat → Bool)
    (l : List (String × WhenInformation)) (n : Nat) :
    ∀ e ∈ (runInitLoop inst pv l n).1, e.2.disposer ≠ none := by
  induction l generalizing n with
  | nil => simp [runInitLoop]
  | cons kv rest ih =>
    obtain ⟨k, info⟩ := kv
    intro e he
    simp [runInitLoop] at he
    rcases he with rfl | he
    · simp
    · exact ih (n + 1) e he

lemma step_callDeinit_infos (s : RunState) (args : List Nat) :
    (step s (.callDeinit args)).1.infos = s.infos := by
  simp [step]

lemma runEvents_disposer_stays_some :
    ∀ (es : List Event) (s : RunState), (∀ e ∈ s.infos, e.2.disposer ≠ none) →
      ∀ e' ∈ (runEvents s es).1.infos, e'.2.disposer ≠ none := by
  intro es
  induction es with
  | nil => intro s h; simpa [runEvents] using h
  | cons e rest ih =>
    intro s h
    have hnext : ∀ x ∈ (step s e).1.infos, x.2.disposer ≠ none := by
      cases e with
      | callInit args =>
        simpa [step] using runInitLoop_disposer_some s.inst s.predVal s.infos s.nextSub
      | callDeinit args => rw [step_callDeinit_infos]; exact h
      | setPred p v => rw [(step_setPred_frame s p v).2]; exact h
    intro e' he'
    simp only [runEvents] at he' ⊢
    exact ih (step s e).1 hnext e' he'

lemma disposer_iff_init_aux :
    ∀ (es : List Event) (s : RunState), (∀ e ∈ s.infos, e.2.disposer = none) →
      ∀ e' ∈ (runEvents s es).1.infos,
        (e'.2.disposer ≠ none ↔ hasInitEvent es = true) := by
  intro es
  induction es with
  | nil =>
    intro s h e' he'
    simp only [runEvents] at he'
    simp [hasInitEvent, h e' he']
  | cons e rest ih =>
    intro s h e' he'
    simp only [runEvents] at he'
    cases e with
    | callInit args =>
      have hsome : ∀ x ∈ (step s (.callInit args)).1.infos, x.2.disposer ≠ none := by
        simpa [step] using runInitLoop_disposer_some s.inst s.predVal s.infos s.nextSub
      have := runEvents_disposer_stays_some rest _ hsome e' he'
      simp [hasInitEvent, this]
    | callDeinit args =>
      have hpres : ∀ x ∈ (step s (.callDeinit args)).1.infos, x.2.disposer = none := by
        rw [step_callDeinit_infos]; exact h
      have := ih (step s (.callDeinit args)).1 hpres e' he'
      simpa [hasInitEvent] using this
    | setPred p v =>
      have hpres : ∀ x ∈ (step s (.setPred p v)).1.infos, x.2.disposer = none := by
        rw [(step_setPred_frame s p v).2]; exact h
      have := ih (step s (.setPred p v)).1 hpres e' he'
      simpa [hasInitEvent] using this

/-- C4 amended: the deactivation wrapper invokes the stored subscription
handle but does not clear it.  Consequently, for an instance whose bindings
start with empty handles, after any event trace a binding's
`subscriptionHandle` is non-empty if and only if the instance's init wrapper
has run at least once — not if and only if init ran more recently than
deinit. -/
theorem C4_handle_iff_ever_activated (i : Nat) (pv : Nat → Bool)
    (infos : List (String × WhenInformation)) (es : List Event)
    (h0 : ∀ e ∈ infos, e.2.disposer = none) :
    ∀ e' ∈ (runEvents (initialRunState i infos pv) es).1.infos,
      (e'.2.disposer ≠ none ↔ hasInitEvent es = true) :=
  disposer_iff_init_aux es (initialRunState i infos pv) h0

/-- Witness for the amended C4 at a concrete input: after an activation
followed by the matching deactivation the handle is still non-empty. -/
theorem C4_handle_iff_ever_activated_witness :
    (∀ e ∈ [("m", (⟨0, 1, [], none⟩ : WhenInformation))], e.2.disposer = none) ∧
    (∀ e' ∈ (runEvents (initialRunState 0
        [("m", (⟨0, 1, [], none⟩ : WhenInformation))] (fun _ => false))
        [Event.callInit [], Event.callDeinit []]).1.infos,
      (e'.2.disposer ≠ none ↔
        hasInitEvent [Event.callInit [], Event.callDeinit []] = true)) :=
  ⟨by decide,
    C4_handle_iff_ever_activated 0 (fun _ => false)
      [("m", (⟨0, 1, [], none⟩ : WhenInformation))]
      [Event.callInit [], Event.callDeinit []] (by decide)⟩

end MobxWhen
